import Mathlib

/-!
Verification of the cache-aside layer of the Bun-cache repository
(`src/index.ts`).  The development shallowly embeds:

* the JSON value space and the JavaScript runtime functions
  `JSON.stringify` / `JSON.parse` (external collaborators of the code,
  modelled executably on the fragment the library produces: no
  whitespace, integer numerals, `\"` and `\\` string escapes);
* the store (a map from string keys to string cells tagged with the
  TTL that the last write supplied);
* the operations `setValue`, `getValue`, `cacheTimeInMS`,
  `computeCacheKey`, `getValueOrRetrieve` and `transaction` of the
  `CacheClient` class, translated clause by clause from the source,
  including JavaScript truthiness tests (`!duration`, `if (value)`)
  and the unguarded `JSON.parse` on the hit path.

Definitions come first, all theorems afterwards.
-/

/-- Character for a single decimal digit (`0`–`9`); used by the decimal
printer that models how JavaScript renders integer numbers. -/
def digitChar (n : Nat) : Char :=
  match n with
  | 0 => '0'
  | 1 => '1'
  | 2 => '2'
  | 3 => '3'
  | 4 => '4'
  | 5 => '5'
  | 6 => '6'
  | 7 => '7'
  | 8 => '8'
  | _ => '9'

/-- Numeric value of a decimal digit character. -/
def digitVal (c : Char) : Nat := c.toNat - 48

/-- True when the list does not begin with a decimal digit; the greedy
number lexer stops exactly at such a position. -/
def noDigitHead (cs : List Char) : Bool :=
  match cs with
  | [] => true
  | c :: _ => !c.isDigit

/-- Decimal digits of a natural number, most significant first. -/
def natChars (n : Nat) : List Char :=
  if n < 10 then [digitChar n]
  else natChars (n / 10) ++ [digitChar (n % 10)]
termination_by n
decreasing_by exact Nat.div_lt_self (by omega) (by omega)

/-- Decimal rendering of an integer, mirroring how `JSON.stringify`
prints an integral JavaScript number. -/
def intChars (n : Int) : List Char :=
  if n < 0 then '-' :: natChars n.natAbs else natChars n.toNat

/-- Greedy digit lexer with an accumulator: consumes digits from the
front, folding them into `acc` base 10. -/
def parseDigits : List Char → Nat → Nat × List Char
  | [], acc => (acc, [])
  | c :: rest, acc =>
    if c.isDigit then parseDigits rest (acc * 10 + digitVal c) else (acc, c :: rest)

/-- JSON natural-number literal: one digit, then (unless the first digit
was `0`, which JSON forbids to lead) greedily more digits. -/
def parseNatLit : List Char → Option (Nat × List Char)
  | [] => none
  | c :: rest =>
    if c = '0' then some (0, rest)
    else if c.isDigit then some (parseDigits rest (digitVal c))
    else none

/-- String-body escaping as performed by `JSON.stringify` on the
characters our model covers: quote and backslash gain a backslash. -/
def escapeChars : List Char → List Char
  | [] => []
  | c :: rest =>
    if c = '"' ∨ c = '\\' then '\\' :: c :: escapeChars rest
    else c :: escapeChars rest

/-- String-body reader: consumes characters up to the closing quote,
taking the character after a backslash literally. -/
def parseStrChars : List Char → Option (List Char × List Char)
  | [] => none
  | c :: rest =>
    if c = '"' then some ([], rest)
    else if c = '\\' then
      match rest with
      | [] => none
      | d :: rest2 => (parseStrChars rest2).map (fun p => (d :: p.1, p.2))
    else (parseStrChars rest).map (fun p => (c :: p.1, p.2))

/-- Expects the literal characters `lit` at the front of the input and
returns the remainder. -/
def expectLit : List Char → List Char → Option (List Char)
  | [], cs => some cs
  | _ :: _, [] => none
  | l :: ls, c :: cs => if c = l then expectLit ls cs else none

mutual
/-- JSON-serializable JavaScript values: the value space over which the
cache operates.  Arrays and objects are represented by the mutual
companions so that every definition can recurse structurally. -/
inductive Json where
  | jnull : Json
  | jbool : Bool → Json
  | jnum : Int → Json
  | jstr : String → Json
  | jarr : JsonList → Json
  | jobj : JsonFields → Json
/-- Element list of a JSON array. -/
inductive JsonList where
  | nil : JsonList
  | cons : Json → JsonList → JsonList
/-- Key/value member list of a JSON object. -/
inductive JsonFields where
  | fnil : JsonFields
  | fcons : String → Json → JsonFields → JsonFields
end

/-- Test for the JavaScript `null` value (`fetchedValue === null`). -/
def Json.isNull : Json → Bool
  | .jnull => true
  | _ => false

/-- Test for a JavaScript string (`typeof value === "string"`). -/
def Json.isStr : Json → Bool
  | .jstr _ => true
  | _ => false

mutual
/-- Characters emitted by `JSON.stringify` for a value: compact output,
no whitespace, exactly as the JavaScript runtime produces it. -/
def Json.stringifyChars : Json → List Char
  | .jnull => ['n', 'u', 'l', 'l']
  | .jbool true => ['t', 'r', 'u', 'e']
  | .jbool false => ['f', 'a', 'l', 's', 'e']
  | .jnum n => intChars n
  | .jstr s => '"' :: (escapeChars s.data ++ ['"'])
  | .jarr xs => '[' :: (xs.bodyChars ++ [']'])
  | .jobj fs => '{' :: (fs.bodyChars ++ ['}'])
/-- Comma-separated body of an array literal. -/
def JsonList.bodyChars : JsonList → List Char
  | .nil => []
  | .cons v .nil => v.stringifyChars
  | .cons v (.cons w tl) =>
    v.stringifyChars ++ ',' :: (JsonList.cons w tl).bodyChars
/-- Comma-separated body of an object literal. -/
def JsonFields.bodyChars : JsonFields → List Char
  | .fnil => []
  | .fcons k v .fnil =>
    '"' :: (escapeChars k.data ++ '"' :: ':' :: v.stringifyChars)
  | .fcons k v (.fcons k2 v2 tl) =>
    ('"' :: (escapeChars k.data ++ '"' :: ':' :: v.stringifyChars)) ++
      ',' :: (JsonFields.fcons k2 v2 tl).bodyChars
end

mutual
/-- Fuel sufficient for the recursive-descent parser to read this value
back; every parser level consumes one unit. -/
def Json.pfuel : Json → Nat
  | .jnull => 1
  | .jbool _ => 1
  | .jnum _ => 1
  | .jstr _ => 1
  | .jarr xs => xs.pfuel + 1
  | .jobj fs => fs.pfuel + 1
/-- Fuel needed to read back an array body. -/
def JsonList.pfuel : JsonList → Nat
  | .nil => 0
  | .cons v tl => max v.pfuel tl.pfuel + 1
/-- Fuel needed to read back an object body. -/
def JsonFields.pfuel : JsonFields → Nat
  | .fnil => 0
  | .fcons _ v tl => max v.pfuel tl.pfuel + 1
end

/-- The string `JSON.stringify` produces for a value. -/
def Json.stringify (v : Json) : String := ⟨v.stringifyChars⟩

/-- Canonical decimal string of an integer (used to state the
numeric-string coercion behaviour). -/
def intString (n : Int) : String := ⟨intChars n⟩

mutual
/-- Recursive-descent JSON value reader modelling `JSON.parse` on the
whitespace-free grammar fragment, driven by fuel. -/
def parseVal : Nat → List Char → Option (Json × List Char)
  | 0, _ => none
  | fuel + 1, cs =>
    match cs with
    | [] => none
    | c :: rest =>
      if c = 'n' then (expectLit ['u', 'l', 'l'] rest).map (fun r => (Json.jnull, r))
      else if c = 't' then (expectLit ['r', 'u', 'e'] rest).map (fun r => (Json.jbool true, r))
      else if c = 'f' then (expectLit ['a', 'l', 's', 'e'] rest).map (fun r => (Json.jbool false, r))
      else if c = '"' then
        (parseStrChars rest).map (fun p => (Json.jstr ⟨p.1⟩, p.2))
      else if c = '[' then
        match rest with
        | [] => none
        | c2 :: rest2 =>
          if c2 = ']' then some (Json.jarr JsonList.nil, rest2)
          else (parseElems fuel (c2 :: rest2)).map (fun p => (Json.jarr p.1, p.2))
      else if c = '{' then
        match rest with
        | [] => none
        | c2 :: rest2 =>
          if c2 = '}' then some (Json.jobj JsonFields.fnil, rest2)
          else (parseFields fuel (c2 :: rest2)).map (fun p => (Json.jobj p.1, p.2))
      else if c = '-' then
        (parseNatLit rest).map (fun p => (Json.jnum (-(p.1 : Int)), p.2))
      else if c.isDigit then
        (parseNatLit (c :: rest)).map (fun p => (Json.jnum (p.1 : Int), p.2))
      else none
/-- Reads a non-empty array body followed by `]`. -/
def parseElems : Nat → List Char → Option (JsonList × List Char)
  | 0, _ => none
  | fuel + 1, cs =>
    match parseVal fuel cs with
    | none => none
    | some (v, rest) =>
      match rest with
      | [] => none
      | c :: rest2 =>
        if c = ',' then (parseElems fuel rest2).map (fun p => (JsonList.cons v p.1, p.2))
        else if c = ']' then some (JsonList.cons v JsonList.nil, rest2)
        else none
/-- Reads a non-empty object body followed by a closing brace. -/
def parseFields : Nat → List Char → Option (JsonFields × List Char)
  | 0, _ => none
  | fuel + 1, cs =>
    match cs with
    | [] => none
    | c :: rest =>
      if c = '"' then
        match parseStrChars rest with
        | none => none
        | some (kcs, r1) =>
          match r1 with
          | ':' :: r2 =>
            match parseVal fuel r2 with
            | none => none
            | some (v, r3) =>
              match r3 with
              | ',' :: r4 =>
                (parseFields fuel r4).map
                  (fun p => (JsonFields.fcons ⟨kcs⟩ v p.1, p.2))
              | '}' :: r4 => some (JsonFields.fcons ⟨kcs⟩ v JsonFields.fnil, r4)
              | _ => none
          | _ => none
      else none
end

/-- Model of `JSON.parse` on a whole string: the input must be consumed
entirely, otherwise parsing fails (as the JavaScript runtime throws). -/
def parseJson (s : String) : Option Json :=
  match parseVal (s.data.length + 1) s.data with
  | some (v, []) => some v
  | _ => none

/-- Millisecond conversion factor, from the source constants. -/
def SECONDS : ℚ := 1000

/-- Millisecond conversion factor, from the source constants. -/
def MINUTES : ℚ := 60 * SECONDS

/-- Millisecond conversion factor, from the source constants. -/
def HOURS : ℚ := 60 * MINUTES

/-- Millisecond conversion factor, from the source constants. -/
def DAYS : ℚ := 24 * HOURS

/-- The reserved sentinel string that represents a cached `null`. -/
def NULL_SYMBOL : String := "%__NULL__%"

/-- One stored slot: the string held at a key together with the TTL (in
seconds) that the last write attached, `none` when the write carried no
expiry argument. -/
structure Cell where
  value : String
  ttl : Option ℚ

/-- The external store: a map from keys to slots (`none` = absent). -/
abbrev CacheStore := String → Option Cell

/-- Plain `SET key value`: overwrites the slot, discarding any TTL. -/
def setCell (store : CacheStore) (key : String) (cell : Cell) : CacheStore :=
  fun k => if k = key then some cell else store k

/-- `EXPIRE key seconds`: refreshes the TTL of an existing slot. -/
def renewTTL (store : CacheStore) (key : String) (seconds : ℚ) : CacheStore :=
  fun k =>
    if k = key then (store k).map (fun c => ⟨c.value, some seconds⟩)
    else store k

/-- Time units accepted by the `duration` cache option. -/
inductive TimeUnit where
  | milliseconds
  | seconds
  | minutes
  | hours
  | days
deriving DecidableEq

/-- The `duration` option: a raw millisecond count or a value/unit pair. -/
inductive DurationSpec where
  | ms : ℚ → DurationSpec
  | unit : ℚ → TimeUnit → DurationSpec

/-- Per-call options of `getValueOrRetrieve`; each field is `none` when
the caller omitted it, mirroring optional object properties. -/
structure CacheOption where
  duration : Option DurationSpec := none
  renewCacheDurationOnAccess : Option Bool := none
  saveNullResponse : Option Bool := none
  bypassCache : Option Bool := none

/-- `options?.duration` with optional chaining. -/
def optDuration : Option CacheOption → Option DurationSpec
  | none => none
  | some o => o.duration

/-- `options?.renewCacheDurationOnAccess` with optional chaining. -/
def optRenew : Option CacheOption → Option Bool
  | none => none
  | some o => o.renewCacheDurationOnAccess

/-- `options?.saveNullResponse` with optional chaining. -/
def optSaveNull : Option CacheOption → Option Bool
  | none => none
  | some o => o.saveNullResponse

/-- `options?.bypassCache` with optional chaining. -/
def optBypass : Option CacheOption → Option Bool
  | none => none
  | some o => o.bypassCache

/-- Fallback default of the controller: five minutes, from the
constructor of `CacheClient`. -/
def defaultCacheDurationInMs : ℚ := 5 * MINUTES

/-- Constructor resolution of the configured default duration: a missing
or zero (JavaScript-falsy) configuration falls back to five minutes. -/
def resolveDefaultMs (configured : Option ℚ) : ℚ :=
  match configured with
  | none => defaultCacheDurationInMs
  | some d => if d = 0 then defaultCacheDurationInMs else d

/-- Translation of `cacheTimeInMS` (src/index.ts lines 362-382).  Note
the JavaScript truthiness guard `if (!duration)`: a raw duration of `0`
is falsy and therefore yields the controller default, and the `DAYS`
branch multiplies by the `HOURS` factor, exactly as in the source. -/
def cacheTimeInMS (defaultMs : ℚ) (duration : Option DurationSpec) : ℚ :=
  match duration with
  | none => defaultMs
  | some (.ms d) => if d = 0 then defaultMs else d
  | some (.unit v u) =>
    match u with
    | .milliseconds => v
    | .seconds => SECONDS * v
    | .minutes => MINUTES * v
    | .hours => HOURS * v
    | .days => HOURS * v

/-- Key descriptor accepted by `getValueOrRetrieve`: a single string or
a sequence of (already stringified) parts. -/
inductive KeyInput where
  | str : String → KeyInput
  | seq : List String → KeyInput

/-- Translation of `computeCacheKey` (src/index.ts lines 436-446): a
string key is appended to the prefix; a sequence is folded, each part
preceded by an underscore. -/
def computeCacheKey (pfx : String) (input : KeyInput) : String :=
  match input with
  | .str s => pfx ++ s
  | .seq parts => parts.foldl (fun k i => k ++ "_" ++ i) pfx

/-- Separator join as the specification words it ("joined with the
separator `_`"): no separator before the first element. -/
def joinSep (sep : String) : List String → String
  | [] => ""
  | [x] => x
  | x :: y :: tl => x ++ sep ++ joinSep sep (y :: tl)

/-- Translation of `setValue` (src/index.ts lines 312-330) in its plain
two-argument form: strings are stored raw, every other value is stored
as its `JSON.stringify` image; no TTL argument is attached. -/
def setValue (store : CacheStore) (key : String) (v : Json) : CacheStore :=
  match v with
  | .jstr s => setCell store key ⟨s, none⟩
  | _ => setCell store key ⟨v.stringify, none⟩

/-- Translation of `getValue` (src/index.ts lines 342-360): `none` is
JavaScript `null` (absent key or disconnected client); in raw mode the
stored string is returned untouched; otherwise `JSON.parse` is
attempted and a failure degrades to the raw string. -/
def getValue (connected : Bool) (store : CacheStore) (key : String) (raw : Bool) :
    Option Json :=
  if connected then
    match store key with
    | none => none
    | some cell =>
      if raw then some (.jstr cell.value)
      else
        match parseJson cell.value with
        | some v => some v
        | none => some (.jstr cell.value)
  else none

/-- Errors that `getValueOrRetrieve` can raise: the caller-supplied
retrieval callback threw (the payload is carried through unchanged), or
the unguarded `JSON.parse` on the hit path threw on the stored string. -/
inductive GvrError (ε : Type) where
  | retrieveFailed : ε → GvrError ε
  | parseFailed : String → GvrError ε
deriving DecidableEq

/-- Result of one `getValueOrRetrieve` call: the value returned (or the
error raised), the store after the call, and how many times the
retrieval callback ran. -/
structure GvrOutcome (ε : Type) where
  ret : Except (GvrError ε) Json
  store : CacheStore
  retrieveCount : Nat

/-- The cache-hit test of src/index.ts line 396-399: the stored string
is truthy, and it is not the sentinel unless `saveNullResponse` is not
explicitly `false`. -/
def hitCondition (cell : Cell) (opts : Option CacheOption) : Prop :=
  cell.value ≠ "" ∧ (cell.value ≠ NULL_SYMBOL ∨ optSaveNull opts ≠ some false)

instance (cell : Cell) (opts : Option CacheOption) : Decidable (hitCondition cell opts) := by
  unfold hitCondition; infer_instance

/-- Holds when a call with these arguments reaches the retrieval step
(src/index.ts line 416): the cache is bypassed, the slot is absent, or
the stored string fails the hit test. -/
def reachesRetrieval (pfx : String) (store : CacheStore) (key : KeyInput)
    (opts : Option CacheOption) : Prop :=
  optBypass opts = some true ∨
    match store (computeCacheKey pfx key) with
    | none => True
    | some cell => ¬ hitCondition cell opts

/-- Translation of `getValueOrRetrieve` (src/index.ts lines 384-434).
`retrieve` is the outcome of the caller's callback: a value (`Json`,
with `Json.jnull` for a `null` result) or a thrown error.  The hit path
renews the TTL when asked, returns `null` for the sentinel, and parses
the stored string without a guard; the miss path runs the callback
exactly once and writes back per the null-caching policy. -/
def getValueOrRetrieve {ε : Type} (pfx : String) (defaultMs : ℚ) (store : CacheStore)
    (key : KeyInput) (retrieve : Except ε Json) (opts : Option CacheOption) :
    GvrOutcome ε :=
  let computedKey := computeCacheKey pfx key
  let expirationTime := cacheTimeInMS defaultMs (optDuration opts) / SECONDS
  let missPath : GvrOutcome ε :=
    match retrieve with
    | .error e => ⟨.error (.retrieveFailed e), store, 1⟩
    | .ok v =>
      if v.isNull then
        if optSaveNull opts ≠ some false then
          ⟨.ok Json.jnull, setCell store computedKey ⟨NULL_SYMBOL, none⟩, 1⟩
        else ⟨.ok Json.jnull, store, 1⟩
      else ⟨.ok v, setCell store computedKey ⟨v.stringify, some expirationTime⟩, 1⟩
  if optBypass opts ≠ some true then
    match store computedKey with
    | some cell =>
      if hitCondition cell opts then
        let store1 :=
          if optRenew opts = some true then renewTTL store computedKey expirationTime
          else store
        if cell.value = NULL_SYMBOL then ⟨.ok Json.jnull, store1, 0⟩
        else
          match parseJson cell.value with
          | some v => ⟨.ok v, store1, 0⟩
          | none => ⟨.error (.parseFailed cell.value), store1, 0⟩
      else missPath
    | none => missPath
  else missPath

/-- Sequential iteration of `getValueOrRetrieve` with a fixed callback
outcome and options: returns the final store and the total number of
retrieval-callback invocations. -/
def gvrRepeat {ε : Type} (pfx : String) (defaultMs : ℚ) (key : KeyInput)
    (retrieve : Except ε Json) (opts : Option CacheOption) :
    CacheStore → Nat → CacheStore × Nat
  | store, 0 => (store, 0)
  | store, n + 1 =>
    let r := getValueOrRetrieve pfx defaultMs store key retrieve opts
    let p := gvrRepeat pfx defaultMs key retrieve opts r.store n
    (p.1, r.retrieveCount + p.2)

/-- Operations that `transaction` performs on its dedicated secondary
client, in order. -/
inductive TxOp where
  | openClient
  | multi
  | runCallback
  | exec
  | discard
  | closeClient
deriving DecidableEq

/-- Translation of `transaction` (src/index.ts lines 448-463): a second
client is created and connected, `MULTI` is sent, the callback runs;
on success `EXEC` is sent and the call returns, on a callback error
`DISCARD` is sent and the error is re-thrown.  The trace records every
operation performed on the secondary client — the source contains no
`close()` call on either path. -/
def transaction {ε : Type} (callbackError : Option ε) : Except ε Unit × List TxOp :=
  match callbackError with
  | none => (.ok (), [.openClient, .multi, .runCallback, .exec])
  | some e => (.error e, [.openClient, .multi, .runCallback, .discard])

/-- One-step unfolding of the string-body reader on a cons cell. -/
theorem parseStrChars_cons (c : Char) (rest : List Char) :
    parseStrChars (c :: rest) =
      (if c = '"' then some ([], rest)
       else if c = '\\' then
         match rest with
         | [] => none
         | d :: rest2 => (parseStrChars rest2).map (fun p => (d :: p.1, p.2))
       else (parseStrChars rest).map (fun p => (c :: p.1, p.2))) := by
  rw [parseStrChars.eq_def]

/-- One-step unfolding of the value reader at successor fuel. -/
theorem parseVal_step (fuel : Nat) (c : Char) (rest : List Char) :
    parseVal (fuel + 1) (c :: rest) =
      (if c = 'n' then (expectLit ['u', 'l', 'l'] rest).map (fun r => (Json.jnull, r))
       else if c = 't' then (expectLit ['r', 'u', 'e'] rest).map (fun r => (Json.jbool true, r))
       else if c = 'f' then (expectLit ['a', 'l', 's', 'e'] rest).map (fun r => (Json.jbool false, r))
       else if c = '"' then
         (parseStrChars rest).map (fun p => (Json.jstr ⟨p.1⟩, p.2))
       else if c = '[' then
         match rest with
         | [] => none
         | c2 :: rest2 =>
           if c2 = ']' then some (Json.jarr JsonList.nil, rest2)
           else (parseElems fuel (c2 :: rest2)).map (fun p => (Json.jarr p.1, p.2))
       else if c = '{' then
         match rest with
         | [] => none
         | c2 :: rest2 =>
           if c2 = '}' then some (Json.jobj JsonFields.fnil, rest2)
           else (parseFields fuel (c2 :: rest2)).map (fun p => (Json.jobj p.1, p.2))
       else if c = '-' then
         (parseNatLit rest).map (fun p => (Json.jnum (-(p.1 : Int)), p.2))
       else if c.isDigit then
         (parseNatLit (c :: rest)).map (fun p => (Json.jnum (p.1 : Int), p.2))
       else none) := by
  rw [parseVal.eq_def]

/-- One-step unfolding of the array-body reader at successor fuel. -/
theorem parseElems_step (fuel : Nat) (cs : List Char) :
    parseElems (fuel + 1) cs =
      (match parseVal fuel cs with
       | none => none
       | some (v, rest) =>
         match rest with
         | [] => none
         | c :: rest2 =>
           if c = ',' then (parseElems fuel rest2).map (fun p => (JsonList.cons v p.1, p.2))
           else if c = ']' then some (JsonList.cons v JsonList.nil, rest2)
           else none) := by
  rw [parseElems.eq_def]

/-- One-step unfolding of the object-body reader at successor fuel. -/
theorem parseFields_step (fuel : Nat) (cs : List Char) :
    parseFields (fuel + 1) cs =
      (match cs with
       | [] => none
       | c :: rest =>
         if c = '"' then
           match parseStrChars rest with
           | none => none
           | some (kcs, r1) =>
             match r1 with
             | ':' :: r2 =>
               match parseVal fuel r2 with
               | none => none
               | some (v, r3) =>
                 match r3 with
                 | ',' :: r4 =>
                   (parseFields fuel r4).map
                     (fun p => (JsonFields.fcons ⟨kcs⟩ v p.1, p.2))
                 | '}' :: r4 => some (JsonFields.fcons ⟨kcs⟩ v JsonFields.fnil, r4)
                 | _ => none
             | _ => none
         else none) := by
  rw [parseFields.eq_def]

/-- The digit printer and the digit reader invert on single digits. -/
theorem digitVal_digitChar {n : Nat} (h : n < 10) : digitVal (digitChar n) = n := by
  interval_cases n <;> rfl

/-- Printed digits satisfy the lexer's digit test. -/
theorem digitChar_isDigit {n : Nat} (h : n < 10) : (digitChar n).isDigit = true := by
  interval_cases n <;> decide

/-- A printed nonzero digit is not the character zero. -/
theorem digitChar_ne_zero {n : Nat} (h0 : 0 < n) (h : n < 10) : digitChar n ≠ '0' := by
  interval_cases n <;> decide

/-- The decimal print of a natural number is never empty. -/
theorem natChars_ne_nil (n : Nat) : natChars n ≠ [] := by
  rw [natChars]
  split <;> simp

/-- Every character of a decimal print is a digit. -/
theorem natChars_all_digits (n : Nat) : ∀ c ∈ natChars n, c.isDigit = true := by
  induction n using Nat.strong_induction_on with
  | _ n ih =>
    rw [natChars]
    split
    · next h =>
      intro c hc
      simp only [List.mem_singleton] at hc
      subst hc
      exact digitChar_isDigit h
    · next h =>
      intro c hc
      rcases List.mem_append.mp hc with h1 | h1
      · exact ih (n / 10) (Nat.div_lt_self (by omega) (by omega)) c h1
      · simp only [List.mem_singleton] at h1
        subst h1
        exact digitChar_isDigit (Nat.mod_lt _ (by omega))

/-- Folding the printed digits into an accumulator recovers the number,
shifted by the print's length. -/
theorem foldl_natChars (n : Nat) :
    ∀ acc : Nat,
      (natChars n).foldl (fun a c => a * 10 + digitVal c) acc =
        acc * 10 ^ (natChars n).length + n := by
  induction n using Nat.strong_induction_on with
  | _ n ih =>
    intro acc
    rw [natChars]
    split
    · next h =>
      simp [List.foldl, digitVal_digitChar h]
    · next h =>
      rw [List.foldl_append, ih (n / 10) (Nat.div_lt_self (by omega) (by omega)) acc]
      simp only [List.foldl, List.length_append, List.length_singleton]
      rw [digitVal_digitChar (Nat.mod_lt _ (by omega))]
      rw [pow_succ]
      have hdm := Nat.div_add_mod n 10
      ring_nf
      omega

/-- The greedy digit lexer walks through an all-digit block, folding it
into the accumulator. -/
theorem parseDigits_digit_block :
    ∀ (ds : List Char), (∀ c ∈ ds, c.isDigit = true) →
      ∀ (acc : Nat) (rest : List Char),
        parseDigits (ds ++ rest) acc =
          parseDigits rest (ds.foldl (fun a c => a * 10 + digitVal c) acc) := by
  intro ds
  induction ds with
  | nil => intro _ acc rest; simp
  | cons c tl ih =>
    intro hall acc rest
    have hc : c.isDigit = true := hall c (by simp)
    simp only [List.cons_append, parseDigits, hc, if_true, List.foldl]
    exact ih (fun x hx => hall x (by simp [hx])) _ rest

/-- The greedy digit lexer stops immediately on a non-digit head. -/
theorem parseDigits_stop {rest : List Char} (h : noDigitHead rest = true) (acc : Nat) :
    parseDigits rest acc = (acc, rest) := by
  cases rest with
  | nil => rfl
  | cons c tl =>
    simp only [noDigitHead, Bool.not_eq_true'] at h
    simp [parseDigits, h]

/-- Shape of the decimal print of a positive number: a leading nonzero
digit followed by digits. -/
theorem natChars_head {n : Nat} (h0 : 0 < n) :
    ∃ c cs, natChars n = c :: cs ∧ c.isDigit = true ∧ c ≠ '0' ∧
      ∀ x ∈ cs, x.isDigit = true := by
  induction n using Nat.strong_induction_on with
  | _ n ih =>
    rw [natChars]
    split
    · next h =>
      exact ⟨digitChar n, [], rfl, digitChar_isDigit h, digitChar_ne_zero h0 h, by simp⟩
    · next h =>
      obtain ⟨c, cs, heq, hdig, hz, hall⟩ :=
        ih (n / 10) (Nat.div_lt_self (by omega) (by omega)) (by omega)
      refine ⟨c, cs ++ [digitChar (n % 10)], by rw [heq]; simp, hdig, hz, ?_⟩
      intro x hx
      rcases List.mem_append.mp hx with h1 | h1
      · exact hall x h1
      · simp only [List.mem_singleton] at h1
        subst h1
        exact digitChar_isDigit (Nat.mod_lt _ (by omega))

/-- The JSON natural-number literal reader inverts the decimal printer,
stopping exactly at a non-digit. -/
theorem parseNatLit_natChars (n : Nat) {rest : List Char} (hrest : noDigitHead rest = true) :
    parseNatLit (natChars n ++ rest) = some (n, rest) := by
  rcases Nat.eq_zero_or_pos n with rfl | hpos
  · rw [natChars]
    simp [parseNatLit, digitChar]
  · obtain ⟨c, cs, heq, hdig, hz, hall⟩ := natChars_head hpos
    rw [heq]
    simp only [List.cons_append, parseNatLit, if_neg hz, hdig, if_true]
    rw [parseDigits_digit_block cs hall _ rest, parseDigits_stop hrest]
    have hfold := foldl_natChars n 0
    rw [heq] at hfold
    simp only [List.foldl, Nat.zero_mul, Nat.zero_add] at hfold
    rw [hfold]

/-- The string-body reader inverts the escaper: it stops at the closing
quote and undoes the quote/backslash escapes. -/
theorem parseStrChars_escape (cs : List Char) :
    ∀ rest : List Char, parseStrChars (escapeChars cs ++ '"' :: rest) = some (cs, rest) := by
  induction cs with
  | nil =>
    intro rest
    simp [escapeChars, parseStrChars_cons]
  | cons c tl ih =>
    intro rest
    by_cases h : c = '"' ∨ c = '\\'
    · simp only [escapeChars, if_pos h, List.cons_append]
      rw [parseStrChars_cons]
      simp only [if_neg (by decide : ¬('\\' = '"')), if_pos rfl]
      rw [ih rest]
      rfl
    · push_neg at h
      simp only [escapeChars, if_neg (by tauto : ¬(c = '"' ∨ c = '\\')), List.cons_append]
      rw [parseStrChars_cons]
      simp only [if_neg h.1, if_neg h.2]
      rw [ih rest]
      rfl

/-- Literal expectation succeeds on its own literal and leaves the tail. -/
theorem expectLit_append (ls : List Char) :
    ∀ cs : List Char, expectLit ls (ls ++ cs) = some cs := by
  induction ls with
  | nil => intro cs; rfl
  | cons l tl ih => intro cs; simp [expectLit, ih cs]

/-- A decimal digit is none of the characters the JSON grammar treats
specially, nor the sentinel's leading percent sign. -/
theorem isDigit_ne_special {c : Char} (h : c.isDigit = true) :
    c ≠ 'n' ∧ c ≠ 't' ∧ c ≠ 'f' ∧ c ≠ '"' ∧ c ≠ '[' ∧ c ≠ '{' ∧ c ≠ '-' ∧
      c ≠ ']' ∧ c ≠ '}' ∧ c ≠ ',' ∧ c ≠ ':' ∧ c ≠ '%' := by
  refine ⟨?_, ?_, ?_, ?_, ?_, ?_, ?_, ?_, ?_, ?_, ?_, ?_⟩ <;>
    exact fun hc => absurd (hc ▸ h) (by decide)

/-- The decimal print always begins with a digit. -/
theorem natChars_shape (m : Nat) :
    ∃ c cs, natChars m = c :: cs ∧ c.isDigit = true := by
  cases h : natChars m with
  | nil => exact absurd h (natChars_ne_nil m)
  | cons c cs =>
    exact ⟨c, cs, rfl, natChars_all_digits m c (by rw [h]; simp)⟩

/-- Value-level reading of an integer literal: the parser recognises the
printed integer and stops at the first non-digit. -/
theorem parseVal_intChars (n : Int) (fuel : Nat) {rest : List Char}
    (hrest : noDigitHead rest = true) :
    parseVal (fuel + 1) (intChars n ++ rest) = some (Json.jnum n, rest) := by
  by_cases hn : n < 0
  · simp only [intChars, if_pos hn, List.cons_append]
    rw [parseVal_step]
    simp only [if_neg (by decide : ¬('-' = 'n')), if_neg (by decide : ¬('-' = 't')),
      if_neg (by decide : ¬('-' = 'f')), if_neg (by decide : ¬('-' = '"')),
      if_neg (by decide : ¬('-' = '[')), if_neg (by decide : ¬('-' = '{')), if_pos rfl]
    rw [parseNatLit_natChars n.natAbs hrest]
    show some (Json.jnum (-(n.natAbs : Int)), rest) = some (Json.jnum n, rest)
    rw [show (-(n.natAbs : Int)) = n by omega]
  · simp only [intChars, if_neg hn]
    obtain ⟨c, cs, heq, hdig⟩ := natChars_shape n.toNat
    obtain ⟨h1, h2, h3, h4, h5, h6, h7, _⟩ := isDigit_ne_special hdig
    rw [heq]
    simp only [List.cons_append]
    rw [parseVal_step]
    simp only [if_neg h1, if_neg h2, if_neg h3, if_neg h4, if_neg h5, if_neg h6,
      if_neg h7, hdig, if_true]
    rw [show c :: (cs ++ rest) = natChars n.toNat ++ rest by rw [heq]; simp]
    rw [parseNatLit_natChars n.toNat hrest]
    have htn : ((n.toNat : Int)) = n := by omega
    simp [htn]

/-- The print of any value is non-empty and never begins with a
closing bracket, a closing brace, a comma, or a percent sign. -/
theorem stringifyChars_shape (v : Json) :
    ∃ c cs, v.stringifyChars = c :: cs ∧ c ≠ ']' ∧ c ≠ '}' ∧ c ≠ ',' ∧ c ≠ '%' := by
  cases v with
  | jnull => exact ⟨'n', _, rfl, by decide, by decide, by decide, by decide⟩
  | jbool b =>
    cases b with
    | true => exact ⟨'t', _, rfl, by decide, by decide, by decide, by decide⟩
    | false => exact ⟨'f', _, rfl, by decide, by decide, by decide, by decide⟩
  | jnum n =>
    by_cases hn : n < 0
    · refine ⟨'-', natChars n.natAbs, ?_, by decide, by decide, by decide, by decide⟩
      simp [Json.stringifyChars, intChars, if_pos hn]
    · obtain ⟨c, cs, heq, hdig⟩ := natChars_shape n.toNat
      obtain ⟨_, _, _, _, _, _, _, h8, h9, h10, _, h12⟩ := isDigit_ne_special hdig
      exact ⟨c, cs, by simp [Json.stringifyChars, intChars, if_neg hn, heq],
        h8, h9, h10, h12⟩
  | jstr s => exact ⟨'"', _, rfl, by decide, by decide, by decide, by decide⟩
  | jarr xs => exact ⟨'[', _, rfl, by decide, by decide, by decide, by decide⟩
  | jobj fs => exact ⟨'{', _, rfl, by decide, by decide, by decide, by decide⟩

/-- Every value needs at least one unit of fuel. -/
theorem pfuel_pos (v : Json) : 1 ≤ v.pfuel := by
  cases v <;> simp [Json.pfuel]

/-- Trailing input beginning with a closing bracket cannot extend a
number literal. -/
theorem noDigitHead_rb (xs : List Char) : noDigitHead (']' :: xs) = true := rfl

/-- Trailing input beginning with a closing brace cannot extend a
number literal. -/
theorem noDigitHead_cb (xs : List Char) : noDigitHead ('}' :: xs) = true := rfl

/-- Trailing input beginning with a comma cannot extend a number
literal. -/
theorem noDigitHead_comma (xs : List Char) : noDigitHead (',' :: xs) = true := rfl

/-- Printer/reader inversion for every fuel level at once: with enough
fuel, the reader returns exactly the printed value and the untouched
trailing input, provided the trailing input cannot extend a number
literal.  The three conjuncts cover values, array bodies and object
bodies. -/
theorem parse_stringify_all (fuel : Nat) :
    (∀ (v : Json) (rest : List Char), v.pfuel ≤ fuel → noDigitHead rest = true →
      parseVal fuel (v.stringifyChars ++ rest) = some (v, rest)) ∧
    (∀ (xs : JsonList) (rest : List Char), xs ≠ JsonList.nil → xs.pfuel ≤ fuel →
      parseElems fuel (xs.bodyChars ++ ']' :: rest) = some (xs, rest)) ∧
    (∀ (fs : JsonFields) (rest : List Char), fs ≠ JsonFields.fnil → fs.pfuel ≤ fuel →
      parseFields fuel (fs.bodyChars ++ '}' :: rest) = some (fs, rest)) := by
  induction fuel with
  | zero =>
    refine ⟨?_, ?_, ?_⟩
    · intro v rest hf _
      exact absurd (le_trans (pfuel_pos v) hf) (by omega)
    · intro xs rest hne hf
      cases xs with
      | nil => exact absurd rfl hne
      | cons v tl => simp [JsonList.pfuel] at hf
    · intro fs rest hne hf
      cases fs with
      | fnil => exact absurd rfl hne
      | fcons k v tl => simp [JsonFields.pfuel] at hf
  | succ f ih =>
    obtain ⟨ihV, ihL, ihF⟩ := ih
    refine ⟨?_, ?_, ?_⟩
    · intro v rest hf hrest
      cases v with
      | jnull =>
        show parseVal (f + 1) ('n' :: (['u', 'l', 'l'] ++ rest)) = _
        rw [parseVal_step]
        simp [expectLit]
      | jbool b =>
        cases b with
        | true =>
          show parseVal (f + 1) ('t' :: (['r', 'u', 'e'] ++ rest)) = _
          rw [parseVal_step]
          simp [expectLit]
        | false =>
          show parseVal (f + 1) ('f' :: (['a', 'l', 's', 'e'] ++ rest)) = _
          rw [parseVal_step]
          simp [expectLit]
      | jnum n =>
        show parseVal (f + 1) (intChars n ++ rest) = _
        exact parseVal_intChars n f hrest
      | jstr s =>
        show parseVal (f + 1) ('"' :: ((escapeChars s.data ++ ['"']) ++ rest)) = _
        rw [parseVal_step]
        have harg : (escapeChars s.data ++ ['"']) ++ rest
            = escapeChars s.data ++ '"' :: rest := by simp
        rw [harg]
        simp [parseStrChars_escape]
      | jarr xs =>
        cases xs with
        | nil =>
          show parseVal (f + 1) ('[' :: (']' :: rest)) = _
          rw [parseVal_step]
          simp
        | cons w tl =>
          have hf2 : (JsonList.cons w tl).pfuel ≤ f := by
            simp only [Json.pfuel] at hf
            omega
          obtain ⟨c, cs, hhead, hc1, _, _, _⟩ := stringifyChars_shape w
          have hbody : ∃ tt, (JsonList.cons w tl).bodyChars ++ ']' :: rest = c :: tt := by
            cases tl with
            | nil => exact ⟨cs ++ ']' :: rest, by simp [JsonList.bodyChars, hhead]⟩
            | cons y ys =>
              refine ⟨cs ++ (',' :: (JsonList.cons y ys).bodyChars ++ ']' :: rest), ?_⟩
              simp [JsonList.bodyChars, hhead]
          obtain ⟨tt, htt⟩ := hbody
          show parseVal (f + 1)
            ('[' :: (((JsonList.cons w tl).bodyChars ++ [']']) ++ rest)) = _
          have harg : ((JsonList.cons w tl).bodyChars ++ [']']) ++ rest
              = (JsonList.cons w tl).bodyChars ++ ']' :: rest := by simp
          rw [harg, parseVal_step, htt]
          simp only [if_neg (by decide : ¬('[' = 'n')), if_neg (by decide : ¬('[' = 't')),
            if_neg (by decide : ¬('[' = 'f')), if_neg (by decide : ¬('[' = '"')), if_pos rfl,
            if_neg hc1]
          rw [← htt, ihL (JsonList.cons w tl) rest (by simp) hf2]
          simp
      | jobj fs =>
        cases fs with
        | fnil =>
          show parseVal (f + 1) ('{' :: ('}' :: rest)) = _
          rw [parseVal_step]
          simp
        | fcons k w tl =>
          have hf2 : (JsonFields.fcons k w tl).pfuel ≤ f := by
            simp only [Json.pfuel] at hf
            omega
          have hbody : ∃ tt, (JsonFields.fcons k w tl).bodyChars ++ '}' :: rest
              = '"' :: tt := by
            cases tl with
            | fnil =>
              exact ⟨(escapeChars k.data ++ '"' :: ':' :: w.stringifyChars) ++ '}' :: rest,
                by simp [JsonFields.bodyChars]⟩
            | fcons k2 w2 ys =>
              refine ⟨(escapeChars k.data ++ '"' :: ':' :: w.stringifyChars) ++
                (',' :: (JsonFields.fcons k2 w2 ys).bodyChars ++ '}' :: rest), ?_⟩
              simp [JsonFields.bodyChars]
          obtain ⟨tt, htt⟩ := hbody
          show parseVal (f + 1)
            ('{' :: (((JsonFields.fcons k w tl).bodyChars ++ ['}']) ++ rest)) = _
          have harg : ((JsonFields.fcons k w tl).bodyChars ++ ['}']) ++ rest
              = (JsonFields.fcons k w tl).bodyChars ++ '}' :: rest := by simp
          rw [harg, parseVal_step, htt]
          simp only [if_neg (by decide : ¬('{' = 'n')), if_neg (by decide : ¬('{' = 't')),
            if_neg (by decide : ¬('{' = 'f')), if_neg (by decide : ¬('{' = '"')), if_pos rfl,
            if_neg (by decide : ¬('"' = '}'))]
          rw [← htt, ihF (JsonFields.fcons k w tl) rest (by simp) hf2]
          simp
    · intro xs rest hne hf
      cases xs with
      | nil => exact absurd rfl hne
      | cons v tl =>
        simp only [JsonList.pfuel] at hf
        have hv : v.pfuel ≤ f := by
          have := le_max_left v.pfuel tl.pfuel
          omega
        have htl : tl.pfuel ≤ f := by
          have := le_max_right v.pfuel tl.pfuel
          omega
        cases tl with
        | nil =>
          show parseElems (f + 1) (v.stringifyChars ++ ']' :: rest) = _
          rw [parseElems_step, ihV v (']' :: rest) hv (noDigitHead_rb rest)]
          simp
        | cons w tl2 =>
          show parseElems (f + 1)
            ((v.stringifyChars ++ ',' :: (JsonList.cons w tl2).bodyChars) ++ ']' :: rest) = _
          have harg : (v.stringifyChars ++ ',' :: (JsonList.cons w tl2).bodyChars) ++ ']' :: rest
              = v.stringifyChars ++ ',' :: ((JsonList.cons w tl2).bodyChars ++ ']' :: rest) := by
            simp
          rw [parseElems_step, harg, ihV v _ hv (noDigitHead_comma _)]
          simp only [if_pos rfl]
          rw [ihL (JsonList.cons w tl2) rest (by simp) htl]
          simp
    · intro fs rest hne hf
      cases fs with
      | fnil => exact absurd rfl hne
      | fcons k v tl =>
        simp only [JsonFields.pfuel] at hf
        have hv : v.pfuel ≤ f := by
          have := le_max_left v.pfuel tl.pfuel
          omega
        have htl : tl.pfuel ≤ f := by
          have := le_max_right v.pfuel tl.pfuel
          omega
        cases tl with
        | fnil =>
          show parseFields (f + 1)
            (('"' :: (escapeChars k.data ++ '"' :: ':' :: v.stringifyChars)) ++ '}' :: rest) = _
          have harg : ('"' :: (escapeChars k.data ++ '"' :: ':' :: v.stringifyChars)) ++ '}' :: rest
              = '"' :: (escapeChars k.data ++ '"' :: (':' :: (v.stringifyChars ++ '}' :: rest))) := by
            simp
          rw [harg, parseFields_step]
          simp [parseStrChars_escape, ihV v ('}' :: rest) hv (noDigitHead_cb rest)]
        | fcons k2 w tl2 =>
          show parseFields (f + 1)
            ((('"' :: (escapeChars k.data ++ '"' :: ':' :: v.stringifyChars)) ++
              ',' :: (JsonFields.fcons k2 w tl2).bodyChars) ++ '}' :: rest) = _
          rw [parseFields_step]
          have harg : (('"' :: (escapeChars k.data ++ '"' :: ':' :: v.stringifyChars)) ++
                ',' :: (JsonFields.fcons k2 w tl2).bodyChars) ++ '}' :: rest
              = '"' :: (escapeChars k.data ++ '"' ::
                  (':' :: (v.stringifyChars ++
                    ',' :: ((JsonFields.fcons k2 w tl2).bodyChars ++ '}' :: rest)))) := by
            simp
          rw [harg]
          simp [parseStrChars_escape,
            ihV v (',' :: ((JsonFields.fcons k2 w tl2).bodyChars ++ '}' :: rest)) hv
              (noDigitHead_comma _),
            ihF (JsonFields.fcons k2 w tl2) rest (by simp) htl]

/-- The print of an integer is never empty. -/
theorem intChars_ne_nil (n : Int) : intChars n ≠ [] := by
  by_cases hn : n < 0
  · simp [intChars, hn]
  · simp only [intChars, if_neg hn]
    exact natChars_ne_nil _

/-- Every print is at least one character long. -/
theorem stringify_len_pos (v : Json) : 1 ≤ v.stringifyChars.length := by
  obtain ⟨c, cs, heq, _⟩ := stringifyChars_shape v
  simp [heq]

mutual
/-- The fuel a value needs is bounded by its print's length. -/
theorem Json.pfuel_le_len_val : ∀ v : Json, v.pfuel ≤ v.stringifyChars.length
  | .jnull => by simp [Json.pfuel, Json.stringifyChars]
  | .jbool b => by cases b <;> simp [Json.pfuel, Json.stringifyChars]
  | .jnum n => by
    have h := intChars_ne_nil n
    have : 0 < (intChars n).length := List.length_pos.mpr h
    simp only [Json.pfuel, Json.stringifyChars]
    omega
  | .jstr s => by simp [Json.pfuel, Json.stringifyChars]
  | .jarr xs => by
    have h := JsonList.pfuel_le_len_arr xs
    simp only [Json.pfuel, Json.stringifyChars, List.length_cons, List.length_append,
      List.length_singleton]
    omega
  | .jobj fs => by
    have h := JsonFields.pfuel_le_len_obj fs
    simp only [Json.pfuel, Json.stringifyChars, List.length_cons, List.length_append,
      List.length_singleton]
    omega
/-- The fuel an array body needs is bounded by its print's length plus one. -/
theorem JsonList.pfuel_le_len_arr : ∀ xs : JsonList, xs.pfuel ≤ xs.bodyChars.length + 1
  | .nil => by simp [JsonList.pfuel]
  | .cons v .nil => by
    have h1 := Json.pfuel_le_len_val v
    simp only [JsonList.pfuel, JsonList.bodyChars]
    omega
  | .cons v (.cons w tl) => by
    have h1 := Json.pfuel_le_len_val v
    have h2 := JsonList.pfuel_le_len_arr (JsonList.cons w tl)
    have h3 := stringify_len_pos v
    simp only [JsonList.pfuel] at h2
    simp only [JsonList.pfuel, JsonList.bodyChars, List.length_append, List.length_cons]
    omega
/-- The fuel an object body needs is bounded by its print's length plus one. -/
theorem JsonFields.pfuel_le_len_obj : ∀ fs : JsonFields, fs.pfuel ≤ fs.bodyChars.length + 1
  | .fnil => by simp [JsonFields.pfuel]
  | .fcons k v .fnil => by
    have h1 := Json.pfuel_le_len_val v
    simp only [JsonFields.pfuel, JsonFields.bodyChars, List.length_cons, List.length_append]
    omega
  | .fcons k v (.fcons k2 w tl) => by
    have h1 := Json.pfuel_le_len_val v
    have h2 := JsonFields.pfuel_le_len_obj (JsonFields.fcons k2 w tl)
    simp only [JsonFields.pfuel] at h2
    simp only [JsonFields.pfuel, JsonFields.bodyChars, List.length_cons, List.length_append]
    omega
end

/-- Whole-string inversion: reading back the print of any value yields
exactly that value.  This is the JavaScript identity
`JSON.parse(JSON.stringify(v)) === v` on the modelled value space. -/
theorem parseJson_stringify (v : Json) : parseJson v.stringify = some v := by
  show (match parseVal (v.stringifyChars.length + 1) v.stringifyChars with
        | some (w, []) => some w
        | _ => none) = some v
  have hfuel : v.pfuel ≤ v.stringifyChars.length + 1 :=
    le_trans (Json.pfuel_le_len_val v) (by omega)
  have h := (parse_stringify_all (v.stringifyChars.length + 1)).1 v [] hfuel rfl
  rw [List.append_nil] at h
  rw [h]

/-- The canonical decimal string of an integer reads back as that
number: the numeric-string coercion at the heart of the spec's
`"10"`-becomes-`10` behaviour. -/
theorem parseJson_intString (n : Int) : parseJson (intString n) = some (Json.jnum n) :=
  parseJson_stringify (Json.jnum n)

/-- No print is the empty string. -/
theorem stringify_ne_empty (v : Json) : v.stringify ≠ "" := by
  obtain ⟨c, cs, heq, _⟩ := stringifyChars_shape v
  intro h
  have hd := congrArg String.data h
  simp only [Json.stringify] at hd
  rw [heq] at hd
  simp at hd

/-- No print collides with the reserved null sentinel. -/
theorem stringify_ne_nullSymbol (v : Json) : v.stringify ≠ NULL_SYMBOL := by
  obtain ⟨c, cs, heq, _, _, _, hpc⟩ := stringifyChars_shape v
  intro h
  have hd := congrArg String.data h
  simp only [Json.stringify] at hd
  rw [heq, show NULL_SYMBOL.data = '%' :: "__NULL__%".data from rfl] at hd
  exact hpc (List.head_eq_of_cons_eq hd)

/-- Any call that reaches the retrieval step behaves as the pure miss
path: the callback runs once and the outcome depends only on its
result — an error propagates with no write, a null is written as the
sentinel without TTL (unless null-caching is off), and a value is
written with the computed TTL. -/
theorem gvr_miss {ε : Type} (pfx : String) (defaultMs : ℚ) (store : CacheStore)
    (key : KeyInput) (retrieve : Except ε Json) (opts : Option CacheOption)
    (hreach : reachesRetrieval pfx store key opts) :
    getValueOrRetrieve pfx defaultMs store key retrieve opts =
      match retrieve with
      | .error e => ⟨.error (.retrieveFailed e), store, 1⟩
      | .ok v =>
        if v.isNull then
          if optSaveNull opts ≠ some false then
            ⟨.ok Json.jnull,
              setCell store (computeCacheKey pfx key) ⟨NULL_SYMBOL, none⟩, 1⟩
          else ⟨.ok Json.jnull, store, 1⟩
        else
          ⟨.ok v,
            setCell store (computeCacheKey pfx key)
              ⟨v.stringify, some (cacheTimeInMS defaultMs (optDuration opts) / SECONDS)⟩, 1⟩ := by
  unfold reachesRetrieval at hreach
  rcases hreach with hb | hrest
  · simp [getValueOrRetrieve, hb]
  · by_cases hbp : optBypass opts = some true
    · simp [getValueOrRetrieve, hbp]
    · cases hst : store (computeCacheKey pfx key) with
      | none => simp [getValueOrRetrieve, hbp, hst]
      | some cell =>
        simp only [hst] at hrest
        simp [getValueOrRetrieve, hbp, hst, hrest]

/-- C1: with default options, a key whose slot is initially absent and
a retrieval callback producing a non-null value, the first call runs
the callback (exactly once) and returns its value; an immediately
following call returns the same value from the cache and does not run
its own callback at all. -/
theorem C1_retrieve_once_then_cached {ε : Type} (pfx : String) (defaultMs : ℚ)
    (store : CacheStore) (key : KeyInput) (v : Json) (retrieve2 : Except ε Json)
    (habsent : store (computeCacheKey pfx key) = none) (hv : v.isNull = false) :
    (getValueOrRetrieve pfx defaultMs store key (Except.ok v : Except ε Json) none).ret
        = .ok v ∧
    (getValueOrRetrieve pfx defaultMs store key (Except.ok v : Except ε Json) none).retrieveCount
        = 1 ∧
    (getValueOrRetrieve pfx defaultMs
      (getValueOrRetrieve pfx defaultMs store key (Except.ok v : Except ε Json) none).store
      key retrieve2 none).ret = .ok v ∧
    (getValueOrRetrieve pfx defaultMs
      (getValueOrRetrieve pfx defaultMs store key (Except.ok v : Except ε Json) none).store
      key retrieve2 none).retrieveCount = 0 := by
  have hr1 : getValueOrRetrieve pfx defaultMs store key (Except.ok v : Except ε Json) none
      = ⟨.ok v,
          setCell store (computeCacheKey pfx key)
            ⟨v.stringify, some (cacheTimeInMS defaultMs none / SECONDS)⟩, 1⟩ := by
    simp [getValueOrRetrieve, optBypass, optDuration, optSaveNull, habsent, hv]
  have hcell : (setCell store (computeCacheKey pfx key)
        ⟨v.stringify, some (cacheTimeInMS defaultMs none / SECONDS)⟩)
        (computeCacheKey pfx key)
      = some ⟨v.stringify, some (cacheTimeInMS defaultMs none / SECONDS)⟩ := by
    simp [setCell]
  have hr2 : getValueOrRetrieve pfx defaultMs
      (setCell store (computeCacheKey pfx key)
        ⟨v.stringify, some (cacheTimeInMS defaultMs none / SECONDS)⟩) key retrieve2 none
      = ⟨.ok v,
          setCell store (computeCacheKey pfx key)
            ⟨v.stringify, some (cacheTimeInMS defaultMs none / SECONDS)⟩, 0⟩ := by
    simp [getValueOrRetrieve, optBypass, optDuration, optSaveNull, optRenew, hcell,
      hitCondition, stringify_ne_empty v, stringify_ne_nullSymbol v, parseJson_stringify]
  rw [hr1, hr2]
  exact ⟨rfl, rfl, rfl, rfl⟩

/-- C1 witness: a concrete instantiation — absent slot, callback
returning `true`, defaults everywhere; the second call's callback is a
throwing one and is never consulted. -/
theorem C1_witness :
    (getValueOrRetrieve "" 300000 (fun _ => none) (.str "k")
        (Except.ok (Json.jbool true) : Except Unit Json) none).ret
      = .ok (Json.jbool true) ∧
    (getValueOrRetrieve "" 300000 (fun _ => none) (.str "k")
        (Except.ok (Json.jbool true) : Except Unit Json) none).retrieveCount = 1 ∧
    (getValueOrRetrieve "" 300000
      (getValueOrRetrieve "" 300000 (fun _ => none) (.str "k")
        (Except.ok (Json.jbool true) : Except Unit Json) none).store
      (.str "k") (Except.error () : Except Unit Json) none).ret = .ok (Json.jbool true) ∧
    (getValueOrRetrieve "" 300000
      (getValueOrRetrieve "" 300000 (fun _ => none) (.str "k")
        (Except.ok (Json.jbool true) : Except Unit Json) none).store
      (.str "k") (Except.error () : Except Unit Json) none).retrieveCount = 0 :=
  C1_retrieve_once_then_cached "" 300000 (fun _ => none) (.str "k") (Json.jbool true)
    (Except.error () : Except Unit Json) rfl rfl

/-- C3: when the call reaches the retrieval step and the callback
throws, the error propagates unchanged, the callback ran exactly once,
and the store — in particular the computed key's slot — is exactly as
before the call. -/
theorem C3_retrieve_error_atomic {ε : Type} (pfx : String) (defaultMs : ℚ)
    (store : CacheStore) (key : KeyInput) (opts : Option CacheOption) (e : ε)
    (hreach : reachesRetrieval pfx store key opts) :
    getValueOrRetrieve pfx defaultMs store key (Except.error e) opts
      = ⟨.error (.retrieveFailed e), store, 1⟩ := by
  rw [gvr_miss pfx defaultMs store key (Except.error e) opts hreach]

/-- C3 witness: concrete throwing callback on an empty store. -/
theorem C3_witness :
    getValueOrRetrieve "" 300000 (fun _ => none) (.str "k")
        (Except.error "boom" : Except String Json) none
      = ⟨.error (.retrieveFailed "boom"), fun _ => none, 1⟩ :=
  C3_retrieve_error_atomic "" 300000 (fun _ => none) (.str "k") none "boom"
    (Or.inr trivial)

/-- C2: with the sentinel stored at the computed key and the cache not
bypassed — when `saveNullResponse` is not explicitly false the call is
a hit that returns `null` without running the callback; when it is
false the sentinel counts as a miss, the callback runs, and (the null
result not being re-cached) the store is unchanged, so each of `n`
repeated such calls runs the callback again: `n` calls, `n` runs. -/
theorem C2_sentinel_policy {ε : Type} (pfx : String) (defaultMs : ℚ)
    (store : CacheStore) (key : KeyInput) (t : Option ℚ)
    (hs : store (computeCacheKey pfx key) = some ⟨NULL_SYMBOL, t⟩) :
    (∀ (retrieve : Except ε Json) (opts : Option CacheOption),
      optBypass opts ≠ some true → optSaveNull opts ≠ some false →
        (getValueOrRetrieve pfx defaultMs store key retrieve opts).ret = .ok Json.jnull ∧
        (getValueOrRetrieve pfx defaultMs store key retrieve opts).retrieveCount = 0) ∧
    (∀ (retrieve : Except ε Json) (opts : Option CacheOption),
      optBypass opts ≠ some true → optSaveNull opts = some false →
        (getValueOrRetrieve pfx defaultMs store key retrieve opts).retrieveCount = 1) ∧
    (∀ opts : Option CacheOption,
      optBypass opts ≠ some true → optSaveNull opts = some false →
        (getValueOrRetrieve pfx defaultMs store key
            (Except.ok Json.jnull : Except ε Json) opts).store = store ∧
        ∀ n : Nat,
          (gvrRepeat pfx defaultMs key (Except.ok Json.jnull : Except ε Json) opts store n).2
            = n) := by
  have hreach : ∀ opts : Option CacheOption, optSaveNull opts = some false →
      reachesRetrieval pfx store key opts := by
    intro opts hsn
    refine Or.inr ?_
    rw [hs]
    intro hhit
    rcases hhit.2 with hc | hc
    · exact hc rfl
    · exact hc hsn
  refine ⟨?_, ?_, ?_⟩
  · intro retrieve opts hbp hsn
    constructor <;>
      simp [getValueOrRetrieve, hbp, hs, hitCondition, hsn,
        (by decide : ¬(NULL_SYMBOL = ""))]
  · intro retrieve opts hbp hsn
    rw [gvr_miss pfx defaultMs store key retrieve opts (hreach opts hsn)]
    cases retrieve with
    | error e => rfl
    | ok v =>
      cases hvn : v.isNull <;> simp [hsn, hvn]
  · intro opts hbp hsn
    have hone : getValueOrRetrieve pfx defaultMs store key
        (Except.ok Json.jnull : Except ε Json) opts
        = ⟨.ok Json.jnull, store, 1⟩ := by
      rw [gvr_miss pfx defaultMs store key (Except.ok Json.jnull) opts (hreach opts hsn)]
      simp [Json.isNull, hsn]
    refine ⟨by rw [hone], ?_⟩
    intro n
    induction n with
    | zero => rfl
    | succ m ih =>
      rw [gvrRepeat, hone]
      show 1 + (gvrRepeat pfx defaultMs key (Except.ok Json.jnull) opts store m).2 = m + 1
      rw [ih, Nat.add_comm]


/-- C2 witness: a concrete sentinel-holding store; with defaults the
call returns null without running the callback, with null-caching
disabled one call runs the callback once, and two such calls run it
twice. -/
theorem C2_witness :
    ((getValueOrRetrieve "" 300000
        (fun k2 => if k2 = "k" then some ⟨NULL_SYMBOL, none⟩ else none) (.str "k")
        (Except.error () : Except Unit Json) none).ret = .ok Json.jnull ∧
      (getValueOrRetrieve "" 300000
        (fun k2 => if k2 = "k" then some ⟨NULL_SYMBOL, none⟩ else none) (.str "k")
        (Except.error () : Except Unit Json) none).retrieveCount = 0) ∧
    (getValueOrRetrieve "" 300000
        (fun k2 => if k2 = "k" then some ⟨NULL_SYMBOL, none⟩ else none) (.str "k")
        (Except.ok Json.jnull : Except Unit Json)
        (some ⟨none, none, some false, none⟩)).retrieveCount = 1 ∧
    (gvrRepeat "" 300000 (.str "k") (Except.ok Json.jnull : Except Unit Json)
        (some ⟨none, none, some false, none⟩)
        (fun k2 => if k2 = "k" then some ⟨NULL_SYMBOL, none⟩ else none) 2).2 = 2 := by
  have h := @C2_sentinel_policy Unit "" 300000
    (fun k2 => if k2 = "k" then some ⟨NULL_SYMBOL, none⟩ else none) (.str "k") none rfl
  exact ⟨h.1 (Except.error ()) none (by decide) (by decide),
    h.2.1 (Except.ok Json.jnull) (some ⟨none, none, some false, none⟩)
      (by decide) (by decide),
    (h.2.2 (some ⟨none, none, some false, none⟩) (by decide) (by decide)).2 2⟩

/-- C8: when the call reaches the retrieval step with null-caching on
and the callback returns exactly null, the sentinel is written at the
computed key with no TTL and null is returned; by contrast a non-null
result is always written with the computed TTL attached. -/
theorem C8_sentinel_write_no_ttl {ε : Type} (pfx : String) (defaultMs : ℚ)
    (store : CacheStore) (key : KeyInput) (opts : Option CacheOption)
    (hreach : reachesRetrieval pfx store key opts)
    (hsn : optSaveNull opts ≠ some false) :
    ((getValueOrRetrieve pfx defaultMs store key
        (Except.ok Json.jnull : Except ε Json) opts).ret = .ok Json.jnull ∧
      (getValueOrRetrieve pfx defaultMs store key
        (Except.ok Json.jnull : Except ε Json) opts).store (computeCacheKey pfx key)
        = some ⟨NULL_SYMBOL, none⟩) ∧
    (∀ v : Json, v.isNull = false →
      (getValueOrRetrieve pfx defaultMs store key
        (Except.ok v : Except ε Json) opts).store (computeCacheKey pfx key)
        = some ⟨v.stringify,
            some (cacheTimeInMS defaultMs (optDuration opts) / SECONDS)⟩) := by
  constructor
  · rw [gvr_miss pfx defaultMs store key (Except.ok Json.jnull) opts hreach]
    simp [Json.isNull, hsn, setCell]
  · intro v hv
    rw [gvr_miss pfx defaultMs store key (Except.ok v) opts hreach]
    simp [hv, setCell]

/-- C8 witness: concrete empty store, default options. -/
theorem C8_witness :
    ((getValueOrRetrieve "" 300000 (fun _ => none) (.str "k")
        (Except.ok Json.jnull : Except Unit Json) none).ret = .ok Json.jnull ∧
      (getValueOrRetrieve "" 300000 (fun _ => none) (.str "k")
        (Except.ok Json.jnull : Except Unit Json) none).store (computeCacheKey "" (.str "k"))
        = some ⟨NULL_SYMBOL, none⟩) ∧
    (getValueOrRetrieve "" 300000 (fun _ => none) (.str "k")
        (Except.ok (Json.jnum 7) : Except Unit Json) none).store (computeCacheKey "" (.str "k"))
      = some ⟨(Json.jnum 7).stringify, some (cacheTimeInMS 300000 (optDuration none) / SECONDS)⟩ := by
  have h := @C8_sentinel_write_no_ttl Unit "" 300000 (fun _ => none) (.str "k") none
    (Or.inr trivial) (by decide)
  exact ⟨h.1, h.2 (Json.jnum 7) rfl⟩

/-- C10: a slot holding the empty string fails the truthiness hit test,
so the call behaves exactly as on an absent slot: the callback runs
(once), the returned value and invocation count coincide with the
absent-slot call, and a non-null result overwrites the slot. -/
theorem C10_empty_string_is_miss {ε : Type} (pfx : String) (defaultMs : ℚ)
    (store : CacheStore) (key : KeyInput) (opts : Option CacheOption)
    (retrieve : Except ε Json) (t : Option ℚ)
    (hempty : store (computeCacheKey pfx key) = some ⟨"", t⟩)
    (hbp : optBypass opts ≠ some true) :
    (getValueOrRetrieve pfx defaultMs store key retrieve opts).retrieveCount = 1 ∧
    (getValueOrRetrieve pfx defaultMs store key retrieve opts).ret
      = (getValueOrRetrieve pfx defaultMs
          (fun k2 => if k2 = computeCacheKey pfx key then none else store k2)
          key retrieve opts).ret ∧
    (getValueOrRetrieve pfx defaultMs
        (fun k2 => if k2 = computeCacheKey pfx key then none else store k2)
        key retrieve opts).retrieveCount = 1 ∧
    (∀ v : Json, v.isNull = false → retrieve = Except.ok v →
      (getValueOrRetrieve pfx defaultMs store key retrieve opts).store
          (computeCacheKey pfx key)
        = some ⟨v.stringify,
            some (cacheTimeInMS defaultMs (optDuration opts) / SECONDS)⟩) := by
  have hreach1 : reachesRetrieval pfx store key opts := by
    refine Or.inr ?_
    rw [hempty]
    intro hhit
    exact hhit.1 rfl
  have hreach2 : reachesRetrieval pfx
      (fun k2 => if k2 = computeCacheKey pfx key then none else store k2) key opts := by
    refine Or.inr ?_
    simp
  rw [gvr_miss pfx defaultMs store key retrieve opts hreach1,
    gvr_miss pfx defaultMs
      (fun k2 => if k2 = computeCacheKey pfx key then none else store k2)
      key retrieve opts hreach2]
  refine ⟨?_, ?_, ?_, ?_⟩
  · cases retrieve with
    | error e => rfl
    | ok v =>
      cases hvn : v.isNull <;> by_cases hsn : optSaveNull opts = some false <;>
        simp [hvn, hsn]
  · cases retrieve with
    | error e => rfl
    | ok v =>
      cases hvn : v.isNull <;> by_cases hsn : optSaveNull opts = some false <;>
        simp [hvn, hsn]
  · cases retrieve with
    | error e => rfl
    | ok v =>
      cases hvn : v.isNull <;> by_cases hsn : optSaveNull opts = some false <;>
        simp [hvn, hsn]
  · intro v hv hret
    subst hret
    simp [hv, setCell]

/-- C10 witness: an empty-string slot, callback returning `false`,
default options. -/
theorem C10_witness :
    (getValueOrRetrieve "" 300000
        (fun k2 => if k2 = "k" then some ⟨"", none⟩ else none) (.str "k")
        (Except.ok (Json.jbool false) : Except Unit Json) none).retrieveCount = 1 ∧
    (getValueOrRetrieve "" 300000
        (fun k2 => if k2 = "k" then some ⟨"", none⟩ else none) (.str "k")
        (Except.ok (Json.jbool false) : Except Unit Json) none).ret
      = (getValueOrRetrieve "" 300000
          (fun k2 => if k2 = computeCacheKey "" (.str "k") then none
            else if k2 = "k" then some ⟨"", none⟩ else none) (.str "k")
          (Except.ok (Json.jbool false) : Except Unit Json) none).ret ∧
    (getValueOrRetrieve "" 300000
        (fun k2 => if k2 = computeCacheKey "" (.str "k") then none
          else if k2 = "k" then some ⟨"", none⟩ else none) (.str "k")
        (Except.ok (Json.jbool false) : Except Unit Json) none).retrieveCount = 1 ∧
    (getValueOrRetrieve "" 300000
        (fun k2 => if k2 = "k" then some ⟨"", none⟩ else none) (.str "k")
        (Except.ok (Json.jbool false) : Except Unit Json) none).store
        (computeCacheKey "" (.str "k"))
      = some ⟨(Json.jbool false).stringify,
          some (cacheTimeInMS 300000 (optDuration none) / SECONDS)⟩ := by
  have h := @C10_empty_string_is_miss Unit "" 300000
    (fun k2 => if k2 = "k" then some ⟨"", none⟩ else none) (.str "k") none
    (Except.ok (Json.jbool false)) none rfl (by decide)
  exact ⟨h.1, h.2.1, h.2.2.1, h.2.2.2 (Json.jbool false) rfl rfl⟩

/-- C4 counterexample: a raw duration of `0` does not resolve to
`0 / 1000 = 0` seconds; the JavaScript falsiness guard `!duration`
sends it to the controller default, five minutes (300 seconds). -/
theorem C4_zero_duration_counterexample :
    cacheTimeInMS defaultCacheDurationInMs (some (.ms 0)) / SECONDS = 300 ∧
    ((0 : ℚ) / 1000 ≠ 300) := by
  constructor
  · norm_num [cacheTimeInMS, defaultCacheDurationInMs, MINUTES, SECONDS]
  · norm_num

/-- C4 amended: TTL resolution in seconds — a nonzero raw number `d`
yields `d / 1000` (zero, being falsy, falls back to the default); a
value/unit pair yields `v / 1000`, `v`, `60 v`, `3600 v` for
MILLISECONDS, SECONDS, MINUTES, HOURS; the DAYS branch uses the HOURS
multiplier (`3600 v`, not `86400 v`); an absent duration uses the
controller default, whose fallback is five minutes, 300 seconds. -/
theorem C4_ttl_resolution_amended (defaultMs : ℚ) :
    (∀ d : ℚ, d ≠ 0 → cacheTimeInMS defaultMs (some (.ms d)) / SECONDS = d / 1000) ∧
    (cacheTimeInMS defaultMs (some (.ms 0)) / SECONDS = defaultMs / 1000) ∧
    (∀ v : ℚ, cacheTimeInMS defaultMs (some (.unit v .milliseconds)) / SECONDS = v / 1000) ∧
    (∀ v : ℚ, cacheTimeInMS defaultMs (some (.unit v .seconds)) / SECONDS = v) ∧
    (∀ v : ℚ, cacheTimeInMS defaultMs (some (.unit v .minutes)) / SECONDS = 60 * v) ∧
    (∀ v : ℚ, cacheTimeInMS defaultMs (some (.unit v .hours)) / SECONDS = 3600 * v) ∧
    (∀ v : ℚ, cacheTimeInMS defaultMs (some (.unit v .days)) / SECONDS = 3600 * v) ∧
    (cacheTimeInMS defaultMs none / SECONDS = defaultMs / 1000) ∧
    (resolveDefaultMs none = 5 * MINUTES ∧ resolveDefaultMs none / SECONDS = 300) := by
  refine ⟨?_, ?_, ?_, ?_, ?_, ?_, ?_, ?_, ?_, ?_⟩
  · intro d hd
    simp [cacheTimeInMS, SECONDS, hd]
  · simp [cacheTimeInMS, SECONDS]
  · intro v
    simp [cacheTimeInMS, SECONDS]
  · intro v
    rw [show cacheTimeInMS defaultMs (some (.unit v .seconds)) = SECONDS * v from rfl]
    rw [div_eq_iff (by norm_num [SECONDS] : (SECONDS : ℚ) ≠ 0)]
    norm_num [SECONDS]
    ring
  · intro v
    rw [show cacheTimeInMS defaultMs (some (.unit v .minutes)) = MINUTES * v from rfl]
    rw [div_eq_iff (by norm_num [SECONDS] : (SECONDS : ℚ) ≠ 0)]
    norm_num [SECONDS, MINUTES]
    ring
  · intro v
    rw [show cacheTimeInMS defaultMs (some (.unit v .hours)) = HOURS * v from rfl]
    rw [div_eq_iff (by norm_num [SECONDS] : (SECONDS : ℚ) ≠ 0)]
    norm_num [SECONDS, MINUTES, HOURS]
    ring
  · intro v
    rw [show cacheTimeInMS defaultMs (some (.unit v .days)) = HOURS * v from rfl]
    rw [div_eq_iff (by norm_num [SECONDS] : (SECONDS : ℚ) ≠ 0)]
    norm_num [SECONDS, MINUTES, HOURS]
    ring
  · simp [cacheTimeInMS, SECONDS]
  · rfl
  · norm_num [resolveDefaultMs, defaultCacheDurationInMs, MINUTES, SECONDS]

/-- C4 witness: the nonzero raw-number branch at `d = 7`. -/
theorem C4_witness :
    cacheTimeInMS 300000 (some (.ms 7)) / SECONDS = 7 / 1000 :=
  (C4_ttl_resolution_amended 300000).1 7 (by norm_num)

/-- C5: the `setValue`/`getValue` codec round trip — every non-string
value comes back equal to itself; a string that does not parse as JSON
comes back unchanged; the canonical decimal string of an integer comes
back as the number (the numeric-string coercion), even though the
string was stored through the raw-string encode path. -/
theorem C5_codec_round_trip (store : CacheStore) (k : String) :
    (∀ v : Json, v.isStr = false →
      getValue true (setValue store k v) k false = some v) ∧
    (∀ s : String, parseJson s = none →
      getValue true (setValue store k (.jstr s)) k false = some (.jstr s)) ∧
    (∀ n : Int,
      getValue true (setValue store k (.jstr (intString n))) k false
        = some (.jnum n)) := by
  refine ⟨?_, ?_, ?_⟩
  · intro v hv
    cases v with
    | jstr s => simp [Json.isStr] at hv
    | jnull => simp [setValue, getValue, setCell, parseJson_stringify]
    | jbool b => simp [setValue, getValue, setCell, parseJson_stringify]
    | jnum n => simp [setValue, getValue, setCell, parseJson_stringify]
    | jarr xs => simp [setValue, getValue, setCell, parseJson_stringify]
    | jobj fs => simp [setValue, getValue, setCell, parseJson_stringify]
  · intro s hbad
    simp [setValue, getValue, setCell, hbad]
  · intro n
    simp [setValue, getValue, setCell, parseJson_intString]

/-- C5 witness: a boolean survives the round trip; the unparsable
string `hello` comes back as itself; the numeric-looking string `10`
comes back as the number `10`. -/
theorem C5_witness :
    getValue true (setValue (fun _ => none) "k" (.jbool true)) "k" false
      = some (.jbool true) ∧
    getValue true (setValue (fun _ => none) "k" (.jstr "hello")) "k" false
      = some (.jstr "hello") ∧
    getValue true (setValue (fun _ => none) "k" (.jstr (intString 10))) "k" false
      = some (.jnum 10) := by
  have h := C5_codec_round_trip (fun _ => none) "k"
  exact ⟨h.1 (.jbool true) rfl, h.2.1 "hello" rfl, h.2.2 10⟩

/-- C6 counterexample: with the unparsable string `hello` stored,
`getValue` degrades gracefully to the raw string, but the cache-hit
branch of `getValueOrRetrieve` raises a parse error — so decoding does
not "never raise on both read paths". -/
theorem C6_hit_parse_error_counterexample :
    getValue true (fun _ => some ⟨"hello", none⟩) "k" false = some (.jstr "hello") ∧
    (getValueOrRetrieve "" 300000 (fun _ => some ⟨"hello", none⟩) (.str "k")
        (Except.ok Json.jnull : Except Unit Json) none).ret
      = .error (.parseFailed "hello") := by
  constructor
  · rfl
  · rfl

/-- C6 amended: for an unparsable stored string, `getValue` in non-raw
mode never raises and returns the raw string unchanged, but the
cache-hit branch of `getValueOrRetrieve` (whose `JSON.parse` is
unguarded in the source) raises a parse error for the same slot: the
two read paths agree on parseable content but not on failure. -/
theorem C6_decode_paths_amended {ε : Type} (pfx : String) (defaultMs : ℚ)
    (store : CacheStore) (key : KeyInput) (retrieve : Except ε Json) (cell : Cell)
    (hcell : store (computeCacheKey pfx key) = some cell)
    (hbad : parseJson cell.value = none)
    (hne : cell.value ≠ "") (hns : cell.value ≠ NULL_SYMBOL) :
    getValue true store (computeCacheKey pfx key) false = some (.jstr cell.value) ∧
    (getValueOrRetrieve pfx defaultMs store key retrieve none).ret
      = .error (.parseFailed cell.value) := by
  constructor
  · simp [getValue, hcell, hbad]
  · simp [getValueOrRetrieve, optBypass, optSaveNull, optRenew, hcell,
      hitCondition, hne, hns, hbad]

/-- C6 witness: the amended statement at the concrete slot `hello`. -/
theorem C6_witness :
    getValue true (fun _ => some ⟨"hello", none⟩) (computeCacheKey "" (.str "k")) false
      = some (.jstr "hello") ∧
    (getValueOrRetrieve "" 300000 (fun _ => some ⟨"hello", none⟩) (.str "k")
        (Except.error () : Except Unit Json) none).ret
      = .error (.parseFailed "hello") :=
  @C6_decode_paths_amended Unit "" 300000 (fun _ => some ⟨"hello", none⟩) (.str "k")
    (Except.error ()) ⟨"hello", none⟩ rfl rfl (by decide) (by decide)

/-- C7: key derivation — a single string key is the prefix followed by
the string unchanged; a sequence key is the prefix and the elements
joined with the separator `_` in sequence order (the prefix heads the
join, so every element is preceded by one separator); derivation is
deterministic. -/
theorem C7_computeCacheKey_spec (pfx : String) :
    (∀ s : String, computeCacheKey pfx (.str s) = pfx ++ s) ∧
    (∀ parts : List String,
      computeCacheKey pfx (.seq parts) = joinSep "_" (pfx :: parts)) ∧
    (∀ i j : KeyInput, i = j → computeCacheKey pfx i = computeCacheKey pfx j) := by
  have haux : ∀ (parts : List String) (a : String),
      parts.foldl (fun k i => k ++ "_" ++ i) a = joinSep "_" (a :: parts) := by
    intro parts
    induction parts with
    | nil => intro a; rfl
    | cons x tl ih =>
      intro a
      rw [List.foldl_cons, ih (a ++ "_" ++ x)]
      cases tl with
      | nil => rfl
      | cons y ys =>
        show (a ++ "_" ++ x) ++ "_" ++ joinSep "_" (y :: ys)
            = a ++ "_" ++ (x ++ "_" ++ joinSep "_" (y :: ys))
        simp [String.append_assoc]
    
  exact ⟨fun s => rfl, fun parts => haux parts pfx, fun i j h => h ▸ rfl⟩

/-- C7 witness: prefix `p` with the sequence `[a, b]` yields `p_a_b`,
a single string is appended unchanged, and equal inputs give equal
keys. -/
theorem C7_witness :
    computeCacheKey "p" (.str "a") = "p" ++ "a" ∧
    computeCacheKey "p" (.seq ["a", "b"]) = joinSep "_" ["p", "a", "b"] ∧
    computeCacheKey "p" (.str "a") = computeCacheKey "p" (.str "a") := by
  have h := C7_computeCacheKey_spec "p"
  exact ⟨h.1 "a", h.2.1 ["a", "b"], h.2.2 (.str "a") (.str "a") rfl⟩

/-- C9: the transaction helper's trace on its secondary client on both
exit paths — the callback succeeding (commit via EXEC) or throwing
(abort via DISCARD, error re-raised unchanged) — never contains a
close: the source never releases the secondary connection. -/
theorem C9_transaction_never_closes :
    TxOp.closeClient ∉ (transaction (none : Option Unit)).2 ∧
    TxOp.closeClient ∉ (transaction (some ())).2 ∧
    (transaction (some ())).1 = .error () := by
  exact ⟨by decide, by decide, rfl⟩
